import Mathlib

/-!
Verification of the photo-manager duplicate classifier and destination planner.

This file shallowly embeds the core logic of the repository:
  - `src/duplicate_detector.py` (class `AdvancedDuplicateDetector`): the four
    duplicate-detection passes, perceptual/feature similarity, best-file scoring
    and `remove_duplicates`;
  - `src/photo_organizer.py` (class `PhotoOrganizer`): album-index construction,
    album matching, move planning and name-collision resolution;
  - `src/organizer.py` (class `OrganizadorFotos`): the Spanish-named copy of the
    planner (`planificar_movimientos`, `resolver_colision_nombre`).

Conventions of the embedding:
  - Python `float` arithmetic is modelled with `ℚ` (all constants involved,
    such as 0.001, 0.7, 0.3, 0.85, are taken as exact rationals);
  - Python `dict` (insertion-ordered, assignment overwrites) is modelled as an
    association list with `dictInsert`;
  - filesystem state is passed explicitly: a list of existing paths for
    `Path.exists` checks, a list of subdirectory names for `iterdir`;
  - `datetime.fromtimestamp` is passed as an explicit conversion function to a
    calendar-date value, since its output depends only on the timestamp;
  - operations that raise in Python (indexing an empty list, `max` of an empty
    sequence) return `Option`, with `none` for the raised exception.
-/

/-! ### Association lists modelling Python dicts -/

/-- Lookup in an insertion-ordered association list (Python `d[k]` /`k in d`). -/
def alookup {α : Type} (k : String) : List (String × α) → Option α
  | [] => none
  | (k', v) :: rest => if k' = k then some v else alookup k rest

/-- Python dict assignment `d[k] = v`: overwrite in place if the key exists,
append otherwise. -/
def dictInsert {α : Type} (k : String) (v : α) : List (String × α) → List (String × α)
  | [] => [(k, v)]
  | (k', v') :: rest =>
    if k' = k then (k, v) :: rest else (k', v') :: dictInsert k v rest

/-- Python `d1.update(d2)`. -/
def dictUpdate {α : Type} (d1 d2 : List (String × α)) : List (String × α) :=
  d2.foldl (fun m p => dictInsert p.1 p.2 m) d1

/-! ### Character and string utilities (models of `str`/`pathlib` operations) -/

/-- Lowercase a string (`str.lower()` restricted to ASCII, which covers every
extension and album name the program compares). -/
def lowerStr (s : String) : String := String.mk (s.data.map Char.toLower)

/-- Characters of the last `/`-separated component (`PurePath.name`). -/
def lastSlashSplit (cs : List Char) : List Char :=
  cs.foldl (fun acc c => if c = '/' then [] else acc ++ [c]) []

/-- `PurePath.name` as a string. -/
def pathName (p : String) : String := String.mk (lastSlashSplit p.data)

/-- Index of the last dot in a character list (`str.rfind`), if any. -/
def dotIdx (cs : List Char) : Option Nat :=
  (List.range cs.length).foldl
    (fun acc i => if cs.getD i ' ' = '.' then some i else acc) none

/-- `PurePath.suffix`: `name[i:]` where `i` is the last dot index, provided
`0 < i < len(name) - 1`; empty otherwise (the exact CPython rule). -/
def pathSuffix (p : String) : String :=
  let name := lastSlashSplit p.data
  match dotIdx name with
  | some i => if 0 < i ∧ i < name.length - 1 then String.mk (name.drop i) else ""
  | none => ""

/-- `PurePath.stem`: `name[:i]` under the same condition as `pathSuffix`. -/
def pathStem (p : String) : String :=
  let name := lastSlashSplit p.data
  match dotIdx name with
  | some i => if 0 < i ∧ i < name.length - 1 then String.mk (name.take i) else String.mk name
  | none => String.mk name

/-- `PurePath.parent` for the relative and absolute paths used here. -/
def pathParent (p : String) : String :=
  let cs := p.data
  let name := lastSlashSplit cs
  if name.length = cs.length then "."
  else
    let par := cs.take (cs.length - name.length - 1)
    if par = [] then "/" else String.mk par

/-- `str(Path(p) / q)` for the paths used here. -/
def pathJoin (p q : String) : String :=
  if p = "." then q else if p = "/" then "/" ++ q else p ++ "/" ++ q

/-- Boolean test that `lead` is an initial segment of `cs`. -/
def leadsWith : List Char → List Char → Bool
  | [], _ => true
  | _ :: _, [] => false
  | a :: as, b :: bs => a = b && leadsWith as bs

/-- Boolean substring containment (Python `sub in s`). -/
def occursIn (sub : List Char) : List Char → Bool
  | [] => sub.isEmpty
  | c :: rest => leadsWith sub (c :: rest) || occursIn sub rest

/-- Split a character list at a separator (used for `str.split` and
`PurePath.parts`). -/
def splitChars (sep : Char) : List Char → List (List Char)
  | [] => [[]]
  | c :: rest =>
    match splitChars sep rest with
    | [] => if c = sep then [[], []] else [[c]]
    | g :: gs => if c = sep then [] :: g :: gs else (c :: g) :: gs

/-- `str.split()` on the normalized album names (whose only whitespace is the
space character introduced by the `replace` calls). -/
def wordsOf (s : String) : List String :=
  ((splitChars ' ' s.data).filter (fun w => w ≠ [])).map String.mk

/-- `PurePath.parts` for relative paths: nonempty `/`-separated components. -/
def pathParts (p : String) : List String :=
  ((splitChars '/' p.data).filter (fun w => w ≠ [])).map String.mk

/-! ### Hash-value helpers -/

/-- Value of one hexadecimal digit, if valid. -/
def hexDigitVal? (c : Char) : Option Nat :=
  if '0' ≤ c ∧ c ≤ '9' then some (c.toNat - '0'.toNat)
  else if 'a' ≤ c ∧ c ≤ 'f' then some (c.toNat - 'a'.toNat + 10)
  else if 'A' ≤ c ∧ c ≤ 'F' then some (c.toNat - 'A'.toNat + 10)
  else none

/-- Python `int(s, 16)` on the plain hex strings produced by the hashers:
`none` models the `ValueError` for a malformed string. -/
def hexVal? (s : String) : Option Nat :=
  if s.data = [] then none
  else s.data.foldlM (fun acc c => (hexDigitVal? c).map (fun d => 16 * acc + d)) 0

/-- Number of one bits, computed with explicit fuel (the recursion halts as
soon as the argument reaches zero, so `n` itself is always enough fuel). -/
def popcountFuel : Nat → Nat → Nat
  | 0, _ => 0
  | fuel + 1, n => if n = 0 then 0 else n % 2 + popcountFuel fuel (n / 2)

/-- `bin(a ^ b).count('1')`. -/
def popcount (n : Nat) : Nat := popcountFuel n n

/-- Hamming distance of two hash values parsed as hex
(`bin(int(h1,16) ^ int(h2,16)).count('1')`); `none` models a parse failure. -/
def hexHamming? (s1 s2 : String) : Option Nat :=
  match hexVal? s1, hexVal? s2 with
  | some a, some b => some (popcount (a ^^^ b))
  | _, _ => none

/-- Distance of two `imagehash` values via `hex_to_hash` and subtraction:
defined when both strings are valid hex of the same length (otherwise the
library raises and the source skips the kind). -/
def hexToHashDist? (s1 s2 : String) : Option Nat :=
  if s1.length = s2.length then hexHamming? s1 s2 else none

/-! ### The data model: one feature record per candidate file -/

/-- Model of the per-file `data` dict built by `remove_duplicates`
(`src/duplicate_detector.py`): path, timestamp, size, binary/content hash,
perceptual hashes and image features. -/
structure FileRec where
  path : String
  timestamp : ℚ
  size : ℚ
  binary_hash : String
  content_hash : String
  perceptual_hashes : List (String × String)
  features : List (String × ℚ)
deriving DecidableEq, Repr

/-- A duplicate edge `(match_path, similarity, reason)`. -/
abbrev Edge := String × ℚ × String

/-- The duplicate graph: Python dict from a file path to its match list. -/
abbrev DupDict := List (String × List Edge)

/-! ### Perceptual and feature similarity (`src/duplicate_detector.py`) -/

/-- `calculate_perceptual_similarity`: phash contributes `sim * 2` as a single
list element; dhash/ahash compare for equality; whash/colorhash use
`hex_to_hash` Hamming distance; result is `sum / len` of the list, `0.0` if the
list is empty. -/
def calculate_perceptual_similarity (hashes1 hashes2 : List (String × String)) : ℚ :=
  let phashSims : List ℚ :=
    match alookup "phash" hashes1, alookup "phash" hashes2 with
    | some a, some b =>
      match hexHamming? a b with
      | some dist => [((1 : ℚ) - (dist : ℚ) / 64) * 2]
      | none => []
    | _, _ => []
  let step : List ℚ → String → List ℚ := fun sims tipo =>
    match alookup tipo hashes1, alookup tipo hashes2 with
    | some a, some b =>
      if tipo = "whash" ∨ tipo = "colorhash" then
        match hexToHashDist? a b with
        | some dist => sims ++ [(1 : ℚ) - (dist : ℚ) / 64]
        | none => sims
      else sims ++ [if a = b then (1 : ℚ) else 0]
    | _, _ => sims
  let similarities := (["dhash", "ahash", "whash", "colorhash"]).foldl step phashSims
  if similarities.length = 0 then 0 else similarities.sum / similarities.length

/-- `calculate_feature_similarity`: mean of aspect and brightness similarities
where both sides have the attribute; `0.0` for an empty feature dict or when
neither attribute is shared. -/
def calculate_feature_similarity (features1 features2 : List (String × ℚ)) : ℚ :=
  if features1 = [] ∨ features2 = [] then 0
  else
    let sims :=
      (match alookup "aspect" features1, alookup "aspect" features2 with
       | some a, some b => [max 0 ((1 : ℚ) - |a - b|)]
       | _, _ => []) ++
      (match alookup "brightness" features1, alookup "brightness" features2 with
       | some a, some b => [max 0 ((1 : ℚ) - |a - b| / 255)]
       | _, _ => [])
    if sims.length = 0 then 0 else sims.sum / sims.length

/-! ### Best-candidate selection -/

/-- `score_file` inside `select_best_file`: size, plus pixels·0.001 when
present, plus the extension bonus (note the bonus list: only the four listed
RAW extensions receive 10000). -/
def score_file (data : FileRec) : ℚ :=
  let base := data.size +
    (match alookup "pixels" data.features with
     | some p => p * (1 / 1000)
     | none => 0)
  let ext := lowerStr (pathSuffix data.path)
  base +
    (if ext ∈ [".dng", ".arw", ".nef", ".cr2"] then 10000
     else if ext ∈ [".jpg", ".jpeg"] then 1000
     else if ext = ".png" then 500
     else 0)

/-- Python `max(candidates, key=score_file)`: first maximal element; `none`
models the `ValueError` on an empty sequence. -/
def select_best_file (candidates : List FileRec) : Option FileRec :=
  match candidates with
  | [] => none
  | x :: xs => some (xs.foldl (fun best y => if score_file best < score_file y then y else best) x)

/-! ### Exact and content passes -/

/-- `defaultdict(list)` grouping, skipping falsy (empty) hash values; keys in
first-occurrence order, group members in input order. -/
def groupInsert (k : String) (r : FileRec) :
    List (String × List FileRec) → List (String × List FileRec)
  | [] => [(k, [r])]
  | (k', g) :: rest =>
    if k' = k then (k', g ++ [r]) :: rest else (k', g) :: groupInsert k r rest

/-- The `hash_groups` loop of `detect_exact_duplicates` /
`detect_content_duplicates`, parametrized by the hash field. -/
def groupByKey (key : FileRec → String) (files_data : List FileRec) :
    List (String × List FileRec) :=
  files_data.foldl (fun groups data =>
    if key data ≠ "" then groupInsert (key data) data groups else groups) []

/-- The shared body of the exact and content passes: for each group larger
than one, every member other than the best gets the edge
`[(best.path, 1.0, reason)]`. -/
def detectPass (key : FileRec → String) (reason : String)
    (files_data : List FileRec) : DupDict :=
  (groupByKey key files_data).foldl (fun duplicates hg =>
    if hg.2.length > 1 then
      match select_best_file hg.2 with
      | some best =>
        hg.2.foldl (fun dups data =>
          if data ≠ best then dictInsert data.path [(best.path, (1 : ℚ), reason)] dups
          else dups) duplicates
      | none => duplicates
    else duplicates) []

/-- `detect_exact_duplicates`: group by `binary_hash`. -/
def detect_exact_duplicates (files_data : List FileRec) : DupDict :=
  detectPass (fun r => r.binary_hash) "exact" files_data

/-- `detect_content_duplicates`: group by `content_hash`. -/
def detect_content_duplicates (files_data : List FileRec) : DupDict :=
  detectPass (fun r => r.content_hash) "content" files_data

/-! ### Visual pass -/

/-- Matches of `data1` against the records after it (inner loop of
`detect_visual_duplicates`). -/
def visualMatches (visual_threshold : ℚ) (data1 : FileRec) (rest : List FileRec) : List Edge :=
  rest.filterMap (fun data2 =>
    let s := calculate_perceptual_similarity data1.perceptual_hashes data2.perceptual_hashes
    if s > visual_threshold then some (data2.path, s, "visual") else none)

/-- Outer loop of `detect_visual_duplicates`. -/
def visualGo (visual_threshold : ℚ) : List FileRec → DupDict → DupDict
  | [], duplicates => duplicates
  | data1 :: rest, duplicates =>
    let ms := visualMatches visual_threshold data1 rest
    visualGo visual_threshold rest
      (if ms = [] then duplicates else dictInsert data1.path ms duplicates)

/-- `detect_visual_duplicates`. -/
def detect_visual_duplicates (visual_threshold : ℚ) (files_data : List FileRec) : DupDict :=
  visualGo visual_threshold files_data []

/-! ### Burst pass -/

/-- The combined score `sim_visual * 0.7 + sim_features * 0.3`. -/
def total_similarity (data1 data2 : FileRec) : ℚ :=
  calculate_perceptual_similarity data1.perceptual_hashes data2.perceptual_hashes * (7 / 10) +
    calculate_feature_similarity data1.features data2.features * (3 / 10)

/-- Inner matches of `detect_burst_duplicates` for one group member. -/
def burstMatches (data1 : FileRec) (rest : List FileRec) : List Edge :=
  rest.filterMap (fun data2 =>
    let t := total_similarity data1 data2
    if t > 8 / 10 then some (data2.path, t, "burst") else none)

/-- Pairwise loop of `detect_burst_duplicates` over one temporal group. -/
def burstGroupGo : List FileRec → DupDict → DupDict
  | [], duplicates => duplicates
  | data1 :: rest, duplicates =>
    let ms := burstMatches data1 rest
    burstGroupGo rest
      (if ms = [] then duplicates else dictInsert data1.path ms duplicates)

/-- Stable insertion by timestamp: a new element goes after existing elements
with a key less than or equal to its own. -/
def insertByTs (x : FileRec) : List FileRec → List FileRec
  | [] => [x]
  | y :: ys => if y.timestamp ≤ x.timestamp then y :: insertByTs x ys else x :: y :: ys

/-- `sorted(files_data, key=lambda x: x['timestamp'])`: the Python sort is
stable, and stable sorting by a key is unique, so insertion sort is an exact
model. -/
def sortByTs (files_data : List FileRec) : List FileRec :=
  files_data.foldl (fun acc x => insertByTs x acc) []

/-- The grouping loop of `group_by_time` over the sorted tail, carrying the
previous record, the current group and the finished groups. -/
def groupLoop (temporal_threshold : ℚ) :
    List FileRec → FileRec → List FileRec → List (List FileRec) → List (List FileRec)
  | [], _, current_group, groups =>
    if current_group.length > 1 then groups ++ [current_group] else groups
  | f :: rest, prev, current_group, groups =>
    if |f.timestamp - prev.timestamp| ≤ temporal_threshold then
      groupLoop temporal_threshold rest f (current_group ++ [f]) groups
    else
      groupLoop temporal_threshold rest f [f]
        (if current_group.length > 1 then groups ++ [current_group] else groups)

/-- `group_by_time`: `none` models the `IndexError` of `sorted_files[0]` on an
empty input list. -/
def group_by_time (temporal_threshold : ℚ) (files_data : List FileRec) :
    Option (List (List FileRec)) :=
  match sortByTs files_data with
  | [] => none
  | first :: rest => some (groupLoop temporal_threshold rest first [first] [])

/-- `detect_burst_duplicates`. -/
def detect_burst_duplicates (temporal_threshold : ℚ) (files_data : List FileRec) :
    Option DupDict :=
  (group_by_time temporal_threshold files_data).map (fun temporal_groups =>
    temporal_groups.foldl (fun duplicates group =>
      if group.length ≤ 1 then duplicates else burstGroupGo group duplicates) [])

/-! ### `remove_duplicates` -/

/-- `remove_duplicates`, taking the prepared `files_data` (feature extraction
is an external collaborator): merge the pass results with dict `update`,
collect every `match_path` into the removal set, and keep the input records
whose path is not in it. `none` models the `IndexError` raised by the burst pass. -/
def remove_duplicates (visual_threshold temporal_threshold : ℚ)
    (files_data : List FileRec) (skip_visual : Bool) : Option (List FileRec) :=
  let all_duplicates :=
    dictUpdate (dictUpdate [] (detect_exact_duplicates files_data))
      (detect_content_duplicates files_data)
  let merged : Option DupDict :=
    if skip_visual then some all_duplicates
    else
      let all_duplicates :=
        dictUpdate all_duplicates (detect_visual_duplicates visual_threshold files_data)
      (detect_burst_duplicates temporal_threshold files_data).map
        (fun burst => dictUpdate all_duplicates burst)
  merged.map (fun all_dups =>
    let files_to_remove :=
      all_dups.foldl (fun s kv => kv.2.foldl (fun s e => s ++ [e.1]) s) ([] : List String)
    files_data.filter (fun file => file.path ∉ files_to_remove))

/-! ### Album index and matcher (`src/photo_organizer.py`) -/

/-- The RAW extension set shared by `PhotoOrganizer`, `OrganizadorFotos` and
`GestorArchivos`. -/
def raw_extensions : List String :=
  [".dng", ".arw", ".nef", ".cr2", ".cr3", ".orf", ".rw2", ".raf"]

/-- Reserved top-level names skipped by `detect_existing_albums`. -/
def reserved_names : List String := ["raw", "temp", "duplicates", ".git"]

/-- `lower_name.replace('_', ' ').replace('-', ' ')`. -/
def normalizeName (s : String) : String :=
  String.mk (s.data.map (fun c => if c = '_' ∨ c = '-' then ' ' else c))

/-- `detect_existing_albums`, over the subdirectory names of the destination (the
external `iterdir` result): register the lowercased name, the normalized name,
and every normalized word longer than three characters, each mapping to the
directory; dict assignment overwrites earlier entries. -/
def detect_existing_albums (destination : String) (dirnames : List String) :
    List (String × String) :=
  dirnames.foldl (fun albums name =>
    if name ∈ reserved_names then albums
    else
      let lower_name := lowerStr name
      let normalized_name := normalizeName lower_name
      let item := pathJoin destination name
      let albums := dictInsert lower_name item albums
      let albums := dictInsert normalized_name item albums
      (wordsOf normalized_name).foldl
        (fun a word => if word.length > 3 then dictInsert word item a else a) albums) []

/-- `find_matching_album`: first key contained in the lowercased path string,
else first key sharing a substring either way with some path part. -/
def find_matching_album (file_path : String) (albums : List (String × String)) :
    Option String :=
  let path_str := lowerStr file_path
  let path_parts := (pathParts file_path).map lowerStr
  match albums.find? (fun kv => occursIn kv.1.data path_str.data) with
  | some kv => some kv.2
  | none =>
    (albums.find? (fun kv =>
      path_parts.any (fun part =>
        occursIn kv.1.data part.data || occursIn part.data kv.1.data))).map (fun kv => kv.2)

/-! ### Collision resolution -/

/-- The candidate `base.parent / f"{base.stem}_{counter}{base.suffix}"`. -/
def collisionCandidate (base : String) (counter : Nat) : String :=
  pathJoin (pathParent base) (pathStem base ++ "_" ++ Nat.repr counter ++ pathSuffix base)

/-- The `while destination.exists()` loop of `resolve_name_collision`, with
explicit fuel. `fs.length + 1` distinct candidates cannot all exist in `fs`,
so the fuel-exhausted branch is provably never taken (the
distinct decimal counters of the candidates cannot all collide with `fs`). -/
def collisionLoop (fs : List String) (base : String) : Nat → Nat → String
  | 0, counter => collisionCandidate base counter
  | fuel + 1, counter =>
    let cand := collisionCandidate base counter
    if cand ∈ fs then collisionLoop fs base fuel (counter + 1) else cand

/-- `resolve_name_collision` of `PhotoOrganizer`, with the destination
filesystem state `fs` (the set of existing paths) passed explicitly. -/
def resolve_name_collision (fs : List String) (destination : String) : String :=
  if destination ∈ fs then collisionLoop fs destination (fs.length + 1) 1
  else destination

/-- `resolver_colision_nombre` of `OrganizadorFotos` (the Spanish copy,
line-for-line identical to `resolve_name_collision`). -/
def resolver_colision_nombre (fs : List String) (destino : String) : String :=
  if destino ∈ fs then collisionLoop fs destino (fs.length + 1) 1
  else destino

/-! ### Move planning -/

/-- Model of the `datetime` value obtained from `datetime.fromtimestamp`:
the fields that the two planners format. -/
structure PDate where
  year : Nat
  month : Nat
  day : Nat
  monthName : String
  weekdayName : String
deriving DecidableEq, Repr

/-- Zero-padded two-digit formatting (`%m`, `%d`, `{:02d}`). -/
def pad2 (n : Nat) : String := if n < 10 then "0" ++ Nat.repr n else Nat.repr n

/-- `date.strftime('%Y/%m-%B/%d-%A')` — the `storage.hierarchy` default from
`load_config` in `src/utils.py`, used by `plan_moves`. -/
def strftime_hierarchy (d : PDate) : String :=
  Nat.repr d.year ++ "/" ++ pad2 d.month ++ "-" ++ d.monthName ++ "/" ++
    pad2 d.day ++ "-" ++ d.weekdayName

/-- `plan_moves` of `PhotoOrganizer` (`src/photo_organizer.py`): for each file
pick album, RAW archive or the configured date hierarchy, then resolve
collisions against the destination filesystem `fs`. `to_date` models
`datetime.fromtimestamp`. -/
def plan_moves (destination : String) (fs : List String) (to_date : ℚ → PDate)
    (files : List String) (albums : List (String × String))
    (get_timestamp : String → ℚ) : List (String × String × ℚ) :=
  let raw_dir := pathJoin destination "raw"
  files.map (fun file =>
    let timestamp := get_timestamp file
    let date := to_date timestamp
    let is_raw := lowerStr (pathSuffix file) ∈ raw_extensions
    let album_destination := find_matching_album file albums
    let final_destination :=
      match album_destination with
      | some album_dir =>
        if is_raw then pathJoin (pathJoin raw_dir (Nat.repr date.year)) (pathName file)
        else pathJoin album_dir (pathName file)
      | none =>
        if is_raw then pathJoin (pathJoin raw_dir (Nat.repr date.year)) (pathName file)
        else pathJoin (pathJoin destination (strftime_hierarchy date)) (pathName file)
    (file, resolve_name_collision fs final_destination, timestamp))

/-- `planificar_movimientos` of `OrganizadorFotos` (`src/organizer.py`): same
structure, but the date fallback is `f"{fecha.year}/{fecha.month:02d}"` instead
of the configured hierarchy. -/
def planificar_movimientos (destino : String) (fs : List String) (to_date : ℚ → PDate)
    (archivos : List String) (albumes : List (String × String))
    (get_timestamp : String → ℚ) : List (String × String × ℚ) :=
  let raw_dir := pathJoin destino "raw"
  archivos.map (fun archivo =>
    let timestamp := get_timestamp archivo
    let fecha := to_date timestamp
    let es_raw := lowerStr (pathSuffix archivo) ∈ raw_extensions
    let album_destino := find_matching_album archivo albumes
    let destino_final :=
      match album_destino with
      | some album_dir =>
        if es_raw then pathJoin (pathJoin raw_dir (Nat.repr fecha.year)) (pathName archivo)
        else pathJoin album_dir (pathName archivo)
      | none =>
        if es_raw then pathJoin (pathJoin raw_dir (Nat.repr fecha.year)) (pathName archivo)
        else
          pathJoin (pathJoin destino (Nat.repr fecha.year ++ "/" ++ pad2 fecha.month))
            (pathName archivo)
    (archivo, resolver_colision_nombre fs destino_final, timestamp))

/-! ### Injectivity of decimal counters -/

def digitVal (c : Char) : Nat := c.toNat - 48

def decValFold (cs : List Char) : Nat := cs.foldl (fun a c => 10 * a + digitVal c) 0

theorem foldl_decVal_shift (cs : List Char) (a : Nat) :
    cs.foldl (fun x c => 10 * x + digitVal c) a = a * 10 ^ cs.length + decValFold cs := by
  induction cs generalizing a with
  | nil => simp [decValFold]
  | cons c cs ih =>
    simp only [List.foldl_cons, decValFold, List.length_cons]
    rw [ih (10 * a + digitVal c), ih (10 * 0 + digitVal c)]
    ring

theorem decValFold_cons (c : Char) (cs : List Char) :
    decValFold (c :: cs) = digitVal c * 10 ^ cs.length + decValFold cs := by
  have h : decValFold (c :: cs) =
      cs.foldl (fun x k => 10 * x + digitVal k) (10 * 0 + digitVal c) := rfl
  rw [h, foldl_decVal_shift]
  ring_nf

theorem digitVal_digitChar (k : Nat) (h : k < 10) : digitVal (Nat.digitChar k) = k := by
  interval_cases k <;> rfl

theorem decVal_toDigitsCore (fuel : Nat) :
    ∀ n ds, n < fuel →
      decValFold (Nat.toDigitsCore 10 fuel n ds) = n * 10 ^ ds.length + decValFold ds := by
  induction fuel with
  | zero => intro n ds h; omega
  | succ fuel ih =>
    intro n ds h
    simp only [Nat.toDigitsCore]
    by_cases h10 : n / 10 = 0
    · rw [if_pos h10, decValFold_cons, digitVal_digitChar (n % 10) (by omega)]
      have : n % 10 = n := by omega
      rw [this]
    · rw [if_neg h10, ih (n / 10) (Nat.digitChar (n % 10) :: ds) (by omega)]
      rw [decValFold_cons, digitVal_digitChar (n % 10) (by omega)]
      simp only [List.length_cons, pow_succ]
      have hn : n / 10 * (10 ^ ds.length * 10) + (n % 10 * 10 ^ ds.length + decValFold ds) =
          (10 * (n / 10) + n % 10) * 10 ^ ds.length + decValFold ds := by ring
      rw [hn, Nat.div_add_mod]

theorem decVal_toDigits (n : Nat) : decValFold (Nat.toDigits 10 n) = n := by
  unfold Nat.toDigits
  rw [decVal_toDigitsCore (n + 1) n [] (by omega)]
  simp [decValFold]

theorem natRepr_injective : Function.Injective Nat.repr := by
  intro m n h
  have hdata : Nat.toDigits 10 m = Nat.toDigits 10 n := by
    have := congrArg String.data h
    simpa [Nat.repr, List.asString] using this
  have hm := decVal_toDigits m
  rw [hdata, decVal_toDigits n] at hm
  exact hm.symm

theorem pathJoin_right_injective (p : String) : Function.Injective (pathJoin p) := by
  intro q1 q2 h
  unfold pathJoin at h
  split_ifs at h
  · exact h
  · exact String.ext (List.append_cancel_left (congrArg String.data h))
  · exact String.ext (List.append_cancel_left (congrArg String.data h))

theorem midAppend_injective (s t : String) :
    Function.Injective (fun n : Nat => s ++ Nat.repr n ++ t) := by
  intro c1 c2 h
  apply natRepr_injective
  have hd := congrArg String.data h
  simp only [String.data_append, List.append_assoc] at hd
  exact String.ext (List.append_cancel_right (List.append_cancel_left hd))

theorem collisionCandidate_injective (base : String) :
    Function.Injective (collisionCandidate base) := by
  intro c1 c2 h
  unfold collisionCandidate at h
  have h2 := pathJoin_right_injective (pathParent base) h
  have h3 : (fun n : Nat => (pathStem base ++ "_") ++ Nat.repr n ++ pathSuffix base) c1 =
      (fun n : Nat => (pathStem base ++ "_") ++ Nat.repr n ++ pathSuffix base) c2 := by
    simpa [String.append_assoc] using h2
  exact midAppend_injective (pathStem base ++ "_") (pathSuffix base) h3

theorem collisionLoop_cases (fs : List String) (base : String) :
    ∀ fuel counter, collisionLoop fs base fuel counter ∉ fs ∨
      ∀ i, counter ≤ i → i < counter + fuel → collisionCandidate base i ∈ fs := by
  intro fuel
  induction fuel with
  | zero => intro c; right; intro i h1 h2; omega
  | succ fuel ih =>
    intro c
    by_cases hc : collisionCandidate base c ∈ fs
    · have hl : collisionLoop fs base (fuel + 1) c = collisionLoop fs base fuel (c + 1) := by
        simp [collisionLoop, hc]
      rw [hl]
      rcases ih (c + 1) with h | h
      · exact Or.inl h
      · right
        intro i h1 h2
        by_cases hi : i = c
        · exact hi ▸ hc
        · exact h i (by omega) (by omega)
    · left
      have hl : collisionLoop fs base (fuel + 1) c = collisionCandidate base c := by
        simp [collisionLoop, hc]
      rw [hl]
      exact hc

/-! ### C6 machinery -/

def albumKeys (name : String) : List String :=
  let lower_name := lowerStr name
  let normalized_name := normalizeName lower_name
  [lower_name, normalized_name] ++ (wordsOf normalized_name).filter (fun w => w.length > 3)

def insertAllKeys (keys : List String) (v : String) (m : List (String × String)) :
    List (String × String) :=
  keys.foldl (fun a w => dictInsert w v a) m

theorem alookup_dictInsert {α : Type} (k k' : String) (v : α) (m : List (String × α)) :
    alookup k (dictInsert k' v m) = if k' = k then some v else alookup k m := by
  induction m with
  | nil => simp [dictInsert, alookup]
  | cons p rest ih =>
    by_cases hp : p.1 = k'
    · simp only [dictInsert, if_pos hp, alookup]
      by_cases hk : k' = k
      · simp [hk]
      · simp [hk, alookup, show p.1 ≠ k from hp ▸ hk]
    · simp only [dictInsert, if_neg hp, alookup, ih]
      by_cases hk : k' = k
      · simp [hk, show p.1 ≠ k from hk ▸ hp]
      · simp [hk]

theorem alookup_insertAllKeys (keys : List String) (v : String) (k : String) :
    ∀ m, alookup k (insertAllKeys keys v m) = if k ∈ keys then some v else alookup k m := by
  induction keys with
  | nil => intro m; simp [insertAllKeys]
  | cons w ws ih =>
    intro m
    simp only [insertAllKeys, List.foldl_cons]
    have hstep : ws.foldl (fun a w => dictInsert w v a) (dictInsert w v m) =
        insertAllKeys ws v (dictInsert w v m) := rfl
    rw [hstep, ih]
    by_cases hk : k ∈ ws
    · simp [hk]
    · simp only [if_neg hk, alookup_dictInsert, List.mem_cons]
      by_cases hw : k = w
      · simp [hw]
      · simp [hw, hk, show w ≠ k from fun h => hw h.symm]

theorem foldl_conditional_insert (ws : List String) (item : String) :
    ∀ m, ws.foldl (fun a word => if word.length > 3 then dictInsert word item a else a) m =
      insertAllKeys (ws.filter (fun w => w.length > 3)) item m := by
  induction ws with
  | nil => intro m; rfl
  | cons w ws ih =>
    intro m
    by_cases h : w.length > 3
    · simp [List.filter_cons, h, insertAllKeys, ih]
    · simp [List.filter_cons, h, ih]

theorem detect_albums_snoc (destination : String) (ds : List String) (d : String) :
    detect_existing_albums destination (ds ++ [d]) =
      if d ∈ reserved_names then detect_existing_albums destination ds
      else insertAllKeys (albumKeys d) (pathJoin destination d)
        (detect_existing_albums destination ds) := by
  unfold detect_existing_albums
  rw [List.foldl_append]
  by_cases hd : d ∈ reserved_names
  · simp [hd]
  · simp only [List.foldl_cons, List.foldl_nil, if_neg hd]
    rw [foldl_conditional_insert]
    simp [albumKeys, insertAllKeys]

/-- C6 (amended): in album-index construction later directories DO overwrite
earlier identical keys — Python dict assignment is last-writer-wins — so a key
generated by several non-reserved directories maps to the LAST-registered one:
the lookup of any key equals the latest directory (scanning from the end of
the iteration order) that generates it. -/
theorem detect_albums_last_wins (destination : String) (dirnames : List String) (k : String) :
    alookup k (detect_existing_albums destination dirnames) =
      ((dirnames.filter (fun n => n ∉ reserved_names)).reverse.find?
          (fun n => k ∈ albumKeys n)).map (fun n => pathJoin destination n) := by
  induction dirnames using List.reverseRecOn with
  | nil => rfl
  | append_singleton ds d ih =>
    rw [detect_albums_snoc]
    by_cases hd : d ∈ reserved_names
    · rw [if_pos hd, ih]
      have hfilter : (ds ++ [d]).filter (fun n => n ∉ reserved_names) =
          ds.filter (fun n => n ∉ reserved_names) := by
        simp [List.filter_append, hd]
      rw [hfilter]
    · rw [if_neg hd, alookup_insertAllKeys]
      have hfilter : (ds ++ [d]).filter (fun n => n ∉ reserved_names) =
          ds.filter (fun n => n ∉ reserved_names) ++ [d] := by
        simp [List.filter_append, hd]
      rw [hfilter, List.reverse_append]
      by_cases hk : k ∈ albumKeys d
      · simp [hk]
      · simp only [if_neg hk, ih, List.reverse_singleton, List.singleton_append]
        rw [List.find?_cons_of_neg _ (by simpa using hk)]

/-! ### C8 amended -/

/-- C8 (amended): the score is `size + 0.001 * pixels + bonus`, but the
RAW-family bonus of 10000 only covers `.dng`, `.arw`, `.nef`, `.cr2` (not the
collector set, which also has `.cr3`, `.orf`, `.rw2`, `.raf`): a record with
one of those four extensions always outscores a record of equal size and
resolution whose extension is outside the four (whose bonus is at most
1000). -/
theorem raw4_outscores (r1 r2 : FileRec)
    (hsz : r1.size = r2.size)
    (hpx : alookup "pixels" r1.features = alookup "pixels" r2.features)
    (h1 : lowerStr (pathSuffix r1.path) ∈ [".dng", ".arw", ".nef", ".cr2"])
    (h2 : lowerStr (pathSuffix r2.path) ∉ [".dng", ".arw", ".nef", ".cr2"]) :
    score_file r2 < score_file r1 := by
  simp only [score_file]
  rw [hsz, hpx, if_pos h1, if_neg h2]
  split_ifs <;> linarith

/-! ### C10 machinery -/

theorem insertByTs_ne_nil (x : FileRec) (l : List FileRec) : insertByTs x l ≠ [] := by
  cases l with
  | nil => simp [insertByTs]
  | cons y ys =>
    simp only [insertByTs]
    split_ifs <;> simp

theorem foldl_insertByTs_ne_nil (l : List FileRec) :
    ∀ acc : List FileRec, acc ≠ [] → l.foldl (fun acc x => insertByTs x acc) acc ≠ [] := by
  induction l with
  | nil => intro acc h; exact h
  | cons x xs ih => intro acc _; exact ih _ (insertByTs_ne_nil x acc)

theorem sortByTs_ne_nil (fd : List FileRec) (h : fd ≠ []) : sortByTs fd ≠ [] := by
  cases fd with
  | nil => exact absurd rfl h
  | cons x xs =>
    unfold sortByTs
    simp only [List.foldl_cons]
    exact foldl_insertByTs_ne_nil xs (insertByTs x []) (insertByTs_ne_nil x [])

theorem group_by_time_isSome (t : ℚ) (fd : List FileRec) (h : fd ≠ []) :
    (group_by_time t fd).isSome = true := by
  unfold group_by_time
  rcases hs : sortByTs fd with _ | ⟨f, rest⟩
  · exact absurd hs (sortByTs_ne_nil fd h)
  · simp

theorem remove_duplicates_total (v t : ℚ) (fd : List FileRec) (h : fd ≠ []) :
    (remove_duplicates v t fd false).isSome = true := by
  have hg := group_by_time_isSome t fd h
  unfold remove_duplicates
  rcases ho : group_by_time t fd with _ | gs
  · rw [ho] at hg
    simp at hg
  · simp [detect_burst_duplicates, ho]

/-! ### C7 amended -/

theorem resolver_eq_resolve : resolver_colision_nombre = resolve_name_collision := rfl

/-- C7 (amended): the two bilingual planner copies agree on every file that is
routed to the RAW archive or to a matched album; they are NOT identical on the
date fallback, where `plan_moves`
formats the configured hierarchy and `planificar_movimientos` formats
`year/month`. -/
theorem planners_agree (dest : String) (fs : List String) (to_date : ℚ → PDate)
    (files : List String) (albums : List (String × String)) (ts : String → ℚ)
    (h : ∀ f ∈ files, lowerStr (pathSuffix f) ∈ raw_extensions ∨
      (find_matching_album f albums).isSome = true) :
    plan_moves dest fs to_date files albums ts =
      planificar_movimientos dest fs to_date files albums ts := by
  unfold plan_moves planificar_movimientos
  apply List.map_congr_left
  intro f hf
  rcases hm : find_matching_album f albums with _ | a
  · rcases h f hf with hraw | hsome
    · simp [hm, if_pos hraw, resolver_colision_nombre, resolve_name_collision]
    · rw [hm] at hsome
      simp at hsome
  · by_cases hraw : lowerStr (pathSuffix f) ∈ raw_extensions
    · simp [hm, if_pos hraw, resolver_colision_nombre, resolve_name_collision]
    · simp [hm, if_neg hraw, resolver_colision_nombre, resolve_name_collision]

/-! ### C9 machinery -/

theorem groupInsert_sound {P : FileRec → Prop} {key : FileRec → String} (k : String) (r : FileRec)
    (hk : k ≠ "") (hr : P r) (hkr : key r = k) :
    ∀ gs : List (String × List FileRec),
      (∀ p ∈ gs, p.1 ≠ "" ∧ ∀ x ∈ p.2, P x ∧ key x = p.1) →
      ∀ p ∈ groupInsert k r gs, p.1 ≠ "" ∧ ∀ x ∈ p.2, P x ∧ key x = p.1 := by
  intro gs
  induction gs with
  | nil =>
    intro _ p hp
    simp only [groupInsert, List.mem_singleton] at hp
    subst hp
    exact ⟨hk, by intro x hx; simp at hx; subst hx; exact ⟨hr, hkr⟩⟩
  | cons q rest ih =>
    intro hinv p hp
    simp only [groupInsert] at hp
    by_cases hq : q.1 = k
    · rw [if_pos hq] at hp
      rcases List.mem_cons.1 hp with hp1 | hp2
      · subst hp1
        refine ⟨(hinv q (List.mem_cons_self q rest)).1, ?_⟩
        intro x hx
        rcases List.mem_append.1 hx with hxg | hxr
        · exact (hinv q (List.mem_cons_self q rest)).2 x hxg
        · simp at hxr
          subst hxr
          exact ⟨hr, hkr.trans hq.symm⟩
      · exact hinv p (List.mem_cons_of_mem q hp2)
    · rw [if_neg hq] at hp
      rcases List.mem_cons.1 hp with hp1 | hp2
      · subst hp1
        exact hinv q (List.mem_cons_self q rest)
      · exact ih (fun p' hp' => hinv p' (List.mem_cons_of_mem q hp')) p hp2

theorem groupByKey_sound (key : FileRec → String) (fd : List FileRec) :
    ∀ p ∈ groupByKey key fd, p.1 ≠ "" ∧ ∀ x ∈ p.2, x ∈ fd ∧ key x = p.1 := by
  have aux : ∀ (l : List FileRec) (acc : List (String × List FileRec)),
      (∀ r ∈ l, r ∈ fd) →
      (∀ p ∈ acc, p.1 ≠ "" ∧ ∀ x ∈ p.2, x ∈ fd ∧ key x = p.1) →
      ∀ p ∈ l.foldl (fun groups data =>
          if key data ≠ "" then groupInsert (key data) data groups else groups) acc,
        p.1 ≠ "" ∧ ∀ x ∈ p.2, x ∈ fd ∧ key x = p.1 := by
    intro l
    induction l with
    | nil => intro acc _ hacc; exact hacc
    | cons x xs ih =>
      intro acc hl hacc
      simp only [List.foldl_cons]
      by_cases hx : key x ≠ ""
      · rw [if_pos hx]
        exact ih _ (fun r hr => hl r (List.mem_cons_of_mem x hr))
          (groupInsert_sound (key x) x hx (hl x (List.mem_cons_self x xs)) rfl acc hacc)
      · rw [if_neg hx]
        exact ih _ (fun r hr => hl r (List.mem_cons_of_mem x hr)) hacc
  exact aux fd [] (fun r hr => hr) (by simp)

theorem select_best_file_mem (l : List FileRec) (b : FileRec)
    (h : select_best_file l = some b) : b ∈ l := by
  rcases l with _ | ⟨x, xs⟩
  · simp [select_best_file] at h
  · simp only [select_best_file, Option.some.injEq] at h
    subst h
    have aux : ∀ (ys : List FileRec) (z : FileRec),
        ys.foldl (fun best y => if score_file best < score_file y then y else best) z ∈ z :: ys := by
      intro ys
      induction ys with
      | nil => intro z; simp
      | cons y ys ih =>
        intro z
        simp only [List.foldl_cons]
        by_cases hzy : score_file z < score_file y
        · rw [if_pos hzy]
          exact List.mem_cons_of_mem z (ih y)
        · rw [if_neg hzy]
          rcases List.mem_cons.1 (ih z) with h1 | h2
          · rw [h1]
            exact List.mem_cons_self z (y :: ys)
          · exact List.mem_cons_of_mem z (List.mem_cons_of_mem y h2)
    exact aux xs x

/-- Soundness of the keys of the exact/content passes: every key of the
resulting duplicate dict is the path of an input record whose hash under
`key` is nonempty. -/
def passKeysSound (key : FileRec → String) (fd : List FileRec) (m : DupDict) : Prop :=
  ∀ a es, alookup a m = some es → ∃ r, r ∈ fd ∧ key r ≠ "" ∧ r.path = a

theorem passKeysSound_inner (key : FileRec → String) (fd : List FileRec) (best : FileRec)
    (reason : String) :
    ∀ (g : List FileRec), (∀ x ∈ g, x ∈ fd ∧ key x ≠ "") →
    ∀ m, passKeysSound key fd m →
      passKeysSound key fd (g.foldl (fun dups data =>
        if data ≠ best then dictInsert data.path [(best.path, (1 : ℚ), reason)] dups
        else dups) m) := by
  intro g
  induction g with
  | nil => intro _ m hm; exact hm
  | cons x xs ih =>
    intro hg m hm
    simp only [List.foldl_cons]
    apply ih (fun y hy => hg y (List.mem_cons_of_mem x hy))
    by_cases hxb : x ≠ best
    · rw [if_pos hxb]
      intro a es hlook
      rw [alookup_dictInsert] at hlook
      by_cases hax : x.path = a
      · exact ⟨x, (hg x (List.mem_cons_self x xs)).1, (hg x (List.mem_cons_self x xs)).2, hax⟩
      · rw [if_neg hax] at hlook
        exact hm a es hlook
    · rw [if_neg hxb]
      exact hm

theorem detectPass_keys_sound (key : FileRec → String) (reason : String) (fd : List FileRec) :
    passKeysSound key fd (detectPass key reason fd) := by
  unfold detectPass
  have hgs := groupByKey_sound key fd
  have aux : ∀ (gs : List (String × List FileRec)),
      (∀ p ∈ gs, p.1 ≠ "" ∧ ∀ x ∈ p.2, x ∈ fd ∧ key x = p.1) →
      ∀ m, passKeysSound key fd m →
      passKeysSound key fd (gs.foldl (fun duplicates hg =>
        if hg.2.length > 1 then
          match select_best_file hg.2 with
          | some best =>
            hg.2.foldl (fun dups data =>
              if data ≠ best then dictInsert data.path [(best.path, (1 : ℚ), reason)] dups
              else dups) duplicates
          | none => duplicates
        else duplicates) m) := by
    intro gs
    induction gs with
    | nil => intro _ m hm; exact hm
    | cons p rest ih =>
      intro hinv m hm
      simp only [List.foldl_cons]
      apply ih (fun q hq => hinv q (List.mem_cons_of_mem p hq))
      by_cases hlen : p.2.length > 1
      · rw [if_pos hlen]
        rcases hb : select_best_file p.2 with _ | best
        · exact hm
        · have hp := hinv p (List.mem_cons_self p rest)
          exact passKeysSound_inner key fd best reason p.2
            (fun x hx => ⟨(hp.2 x hx).1, (hp.2 x hx).2 ▸ hp.1⟩) m hm
      · rw [if_neg hlen]
        exact hm
  exact aux (groupByKey key fd) hgs [] (by intro a es h; simp [alookup] at h)

/-! ### C5 machinery -/

/-- C5 (amended): three records one second apart with pairwise combined
similarity above 0.8 and window 5 land in one burst group, and the emitted
edges run from each record to the LATER records of the sorted group — the
first record in capture-time order holds the edges and survives, regardless of
which record scores highest. -/
theorem burst_scenario (r1 r2 r3 : FileRec)
    (ht2 : r2.timestamp = r1.timestamp + 1) (ht3 : r3.timestamp = r2.timestamp + 1)
    (hp12 : r1.path ≠ r2.path)
    (hs12 : total_similarity r1 r2 > 8 / 10)
    (hs13 : total_similarity r1 r3 > 8 / 10)
    (hs23 : total_similarity r2 r3 > 8 / 10) :
    group_by_time 5 [r1, r2, r3] = some [[r1, r2, r3]] ∧
    detect_burst_duplicates 5 [r1, r2, r3] =
      some [(r1.path, [(r2.path, total_similarity r1 r2, "burst"),
                       (r3.path, total_similarity r1 r3, "burst")]),
            (r2.path, [(r3.path, total_similarity r2 r3, "burst")])] := by
  have e1 : insertByTs r2 [r1] = [r1, r2] := by
    simp only [insertByTs]
    rw [if_pos (show r1.timestamp ≤ r2.timestamp by rw [ht2]; linarith)]
  have e2 : insertByTs r3 [r1, r2] = [r1, r2, r3] := by
    simp only [insertByTs]
    rw [if_pos (show r1.timestamp ≤ r3.timestamp by rw [ht3, ht2]; linarith),
        if_pos (show r2.timestamp ≤ r3.timestamp by rw [ht3]; linarith)]
  have hsort : sortByTs [r1, r2, r3] = [r1, r2, r3] := by
    simp only [sortByTs, List.foldl_cons, List.foldl_nil]
    rw [show insertByTs r1 [] = [r1] from rfl, e1, e2]
  have habs1 : |r2.timestamp - r1.timestamp| ≤ 5 := by
    rw [ht2, add_sub_cancel_left]
    norm_num
  have habs2 : |r3.timestamp - r2.timestamp| ≤ 5 := by
    rw [ht3, add_sub_cancel_left]
    norm_num
  have hgroup : group_by_time 5 [r1, r2, r3] = some [[r1, r2, r3]] := by
    unfold group_by_time
    rw [hsort]
    simp only [groupLoop, if_pos habs1, if_pos habs2]
    norm_num
  refine ⟨hgroup, ?_⟩
  have hm1 : burstMatches r1 [r2, r3] =
      [(r2.path, total_similarity r1 r2, "burst"),
       (r3.path, total_similarity r1 r3, "burst")] := by
    simp only [burstMatches, List.filterMap_cons, List.filterMap_nil]
    rw [if_pos hs12, if_pos hs13]
  have hm2 : burstMatches r2 [r3] = [(r3.path, total_similarity r2 r3, "burst")] := by
    simp only [burstMatches, List.filterMap_cons, List.filterMap_nil]
    rw [if_pos hs23]
  unfold detect_burst_duplicates
  rw [hgroup, Option.map_some']
  congr 1
  simp only [List.foldl_cons, List.foldl_nil, List.length_cons, List.length_nil]
  norm_num
  simp only [burstGroupGo, hm1, hm2]
  simp only [dictInsert]
  rw [if_neg hp12]
  simp [List.filterMap_nil, burstMatches]

/-! ## Concrete records used by the claim theorems -/

/-- Two records with identical byte content (equal binary and content hash,
equal size), one with a RAW extension and one with a JPEG extension. -/
def rawRec : FileRec := ⟨"p/a.cr2", 100, 5000, "h1", "c1", [], []⟩

/-- JPEG twin of `rawRec`. -/
def jpgRec : FileRec := ⟨"p/a.jpg", 100, 5000, "h1", "c1", [], []⟩

/-- Record whose only perceptual hash is a phash equal to that of `visRec2`. -/
def visRec1 : FileRec := ⟨"a.jpg", 0, 1, "", "", [("phash", "00")], []⟩

/-- Record whose only perceptual hash is a phash equal to that of `visRec1`. -/
def visRec2 : FileRec := ⟨"b.jpg", 0, 1, "", "", [("phash", "00")], []⟩

/-- C1: the spec claims that of two records with equal non-empty binary hash
exactly one survives, the duplicate edge points at the best-scored record, and
for identical content with RAW vs JPEG extension the RAW survives. The code
does select the RAW file as best and emits the edge `jpg ↦ [(raw, 1.0,
exact)]`, but `remove_duplicates` adds every edge target — here the best
(RAW) path — to the removal set, so the JPEG survives and the RAW file is
discarded, contradicting both the spec and the intent of
`select_best_file` (RAW maximum priority). -/
theorem exact_pass_discards_best_file :
    select_best_file [rawRec, jpgRec] = some rawRec ∧
    detect_exact_duplicates [rawRec, jpgRec] = [("p/a.jpg", [("p/a.cr2", 1, "exact")])] ∧
    remove_duplicates (85 / 100) 5 [rawRec, jpgRec] true = some [jpgRec] := by
  refine ⟨by simp +decide [select_best_file, score_file, alookup, lowerStr, pathSuffix,
    lastSlashSplit, dotIdx, rawRec, jpgRec], ?_, ?_⟩
  · simp +decide [detect_exact_duplicates, detectPass, groupByKey, groupInsert,
      select_best_file, score_file, alookup, lowerStr, pathSuffix, lastSlashSplit, dotIdx,
      dictInsert, rawRec, jpgRec]
  · simp +decide [remove_duplicates, detect_exact_duplicates, detect_content_duplicates,
      detectPass, groupByKey, groupInsert, select_best_file, score_file, alookup, lowerStr,
      pathSuffix, lastSlashSplit, dotIdx, dictInsert, dictUpdate, rawRec, jpgRec]

/-- C3: the spec claims perceptual similarity is the arithmetic mean with the
phash comparison counted as two samples. The code appends `sim * 2` as a
single list element and divides by the element count, so two identical
phash-only mappings give similarity 2 (the claimed weighted mean would give
1), and a phash match plus a dhash mismatch gives `(2 + 0) / 2 = 1` (the
claimed weighted mean would give `2/3`). The zero-on-no-common-kind part does
hold. -/
theorem perceptual_similarity_not_weighted_mean :
    calculate_perceptual_similarity [("phash", "00")] [("phash", "00")] = 2 ∧
    calculate_perceptual_similarity [("phash", "00"), ("dhash", "u")]
      [("phash", "00"), ("dhash", "v")] = 1 ∧
    (1 : ℚ) ≠ 2 / 3 ∧
    calculate_perceptual_similarity [("phash", "00")] [("dhash", "u")] = 0 := by
  refine ⟨?_, ?_, by norm_num, ?_⟩ <;>
    norm_num +decide [calculate_perceptual_similarity, alookup, hexHamming?, hexVal?,
      hexDigitVal?, popcount, popcountFuel, hexToHashDist?]

/-- C4: the spec claims every emitted duplicate edge has similarity in
`[0, 1]`, but the visual pass emits an edge with similarity 2 for two records
whose only perceptual hash is an identical phash, because
`calculate_perceptual_similarity` double-weights phash without adjusting the
denominator. -/
theorem visual_edge_similarity_exceeds_one :
    detect_visual_duplicates (85 / 100) [visRec1, visRec2] =
      [("a.jpg", [("b.jpg", 2, "visual")])] ∧
    ¬ ((2 : ℚ) ≤ 1) := by
  refine ⟨?_, by norm_num⟩
  norm_num +decide [detect_visual_duplicates, visualGo, visualMatches, List.filterMap_cons,
    calculate_perceptual_similarity, alookup, hexHamming?, hexVal?, hexDigitVal?, popcount,
    popcountFuel, hexToHashDist?, dictInsert, visRec1, visRec2]

/-- A fixed calendar conversion, the value `datetime.fromtimestamp` yields for
timestamp 1684022400 (2023-05-14, a Sunday, in UTC); the planner inequalities
below hold for every conversion function. -/
def toDateC : ℚ → PDate := fun _ => ⟨2023, 5, 14, "May", "Sunday"⟩

/-- C2 counterexample: two batch files resolving to the same initial
destination `dest/2023/05-May/14-Sunday/a.jpg`, which does not exist on the
(empty) destination filesystem, are both planned to that same path — the
second is not diverted to the `a_1.jpg` variant, because
`resolve_name_collision` only consults the filesystem and no record of paths
assigned earlier in the batch. -/
theorem collision_resolution_ignores_batch :
    plan_moves "dest" [] toDateC ["in/a.jpg", "extra/a.jpg"] [] (fun _ => 1684022400) =
      [("in/a.jpg", "dest/2023/05-May/14-Sunday/a.jpg", 1684022400),
       ("extra/a.jpg", "dest/2023/05-May/14-Sunday/a.jpg", 1684022400)] ∧
    ("dest/2023/05-May/14-Sunday/a.jpg" : String) ≠ "dest/2023/05-May/14-Sunday/a_1.jpg" := by
  refine ⟨?_, by decide⟩
  simp +decide [plan_moves, toDateC, pathJoin, pathSuffix, pathStem, pathParent, pathName,
    pathParts, lowerStr, lastSlashSplit, dotIdx, find_matching_album, occursIn, leadsWith,
    splitChars, raw_extensions, resolve_name_collision, strftime_hierarchy, pad2, Nat.repr,
    Nat.toDigits, Nat.toDigitsCore, Nat.digitChar, List.asString]

/-- C2 amended: collision resolution never returns a path existing in the
captured destination filesystem state; intra-batch duplicates are a separate,
unhandled concern, refuted separately: the loop only consults the passed
filesystem state. -/
theorem collision_resolution_avoids_existing (fs : List String) (destination : String) :
    resolve_name_collision fs destination ∉ fs := by
  by_cases hd : destination ∈ fs
  · unfold resolve_name_collision
    rw [if_pos hd]
    rcases collisionLoop_cases fs destination (fs.length + 1) 1 with h | h
    · exact h
    · exfalso
      have hnd : ((List.range (fs.length + 1)).map
          (fun i => collisionCandidate destination (i + 1))).Nodup := by
        refine List.Nodup.map ?_ (List.nodup_range _)
        intro a b hab
        have := collisionCandidate_injective destination hab
        omega
      have hsub : ((List.range (fs.length + 1)).map
          (fun i => collisionCandidate destination (i + 1))) ⊆ fs := by
        intro x hx
        rcases List.mem_map.1 hx with ⟨i, hi, rfl⟩
        have hi2 := List.mem_range.1 hi
        exact h (i + 1) (by omega) (by omega)
      have hlen := (hnd.subperm hsub).length_le
      simp only [List.length_map, List.length_range] at hlen
      omega
  · unfold resolve_name_collision
    rw [if_neg hd]
    exact hd

/-! ## Remaining claim theorems -/

/-- Shared perceptual hashes of the burst-scenario records. -/
def phC : List (String × String) := [("dhash", "d1"), ("ahash", "a1")]

/-- Shared features of the burst-scenario records. -/
def ftC : List (String × ℚ) := [("aspect", 3 / 2), ("brightness", 100), ("pixels", 1000)]

/-- Burst record at time 100, size 1000. -/
def bRec1 : FileRec := ⟨"b/1.jpg", 100, 1000, "h1", "c1", phC, ftC⟩

/-- Burst record at time 101, size 1000. -/
def bRec2 : FileRec := ⟨"b/2.jpg", 101, 1000, "h2", "c2", phC, ftC⟩

/-- Burst record at time 102, size 9000 — the highest-scored of the three. -/
def bRec3 : FileRec := ⟨"b/3.jpg", 102, 9000, "h3", "c3", phC, ftC⟩

set_option maxHeartbeats 2000000 in
/-- C5 counterexample: three records 1 second apart with high mutual
similarity, no shared binary or content hash, where the LAST record by capture
time is the highest-scored: the burst edges point from earlier records to
later ones, so the highest-scored record `b/3.jpg` appears only as a discard
target and holds no edges — the claim (edges point at the highest-scored
record, which survives) fails. -/
theorem burst_edges_ignore_score :
    detect_exact_duplicates [bRec1, bRec2, bRec3] = [] ∧
    detect_content_duplicates [bRec1, bRec2, bRec3] = [] ∧
    score_file bRec1 < score_file bRec3 ∧
    score_file bRec2 < score_file bRec3 ∧
    detect_burst_duplicates 5 [bRec1, bRec2, bRec3] =
      some [("b/1.jpg", [("b/2.jpg", 1, "burst"), ("b/3.jpg", 1, "burst")]),
            ("b/2.jpg", [("b/3.jpg", 1, "burst")])] ∧
    alookup "b/3.jpg"
      [("b/1.jpg", [("b/2.jpg", (1 : ℚ), "burst"), ("b/3.jpg", 1, "burst")]),
       ("b/2.jpg", [("b/3.jpg", 1, "burst")])] = none := by
  refine ⟨?_, ?_, ?_, ?_, ?_, by decide⟩
  · simp +decide [detect_exact_duplicates, detectPass, groupByKey, groupInsert,
      bRec1, bRec2, bRec3]
  · simp +decide [detect_content_duplicates, detectPass, groupByKey, groupInsert,
      bRec1, bRec2, bRec3]
  · norm_num +decide [score_file, alookup, lowerStr, pathSuffix, lastSlashSplit, dotIdx,
      bRec1, bRec3, ftC]
  · norm_num +decide [score_file, alookup, lowerStr, pathSuffix, lastSlashSplit, dotIdx,
      bRec2, bRec3, ftC]
  · norm_num +decide [detect_burst_duplicates, group_by_time, sortByTs, insertByTs,
      groupLoop, burstGroupGo, burstMatches, List.filterMap_cons, total_similarity,
      calculate_perceptual_similarity, calculate_feature_similarity, alookup, hexHamming?,
      hexVal?, hexDigitVal?, popcount, popcountFuel, hexToHashDist?, dictInsert,
      bRec1, bRec2, bRec3, phC, ftC]

/-- C5 witness for `burst_scenario`: the three concrete burst records
instantiate its hypotheses. -/
theorem burst_scenario_witness :
    group_by_time 5 [bRec1, bRec2, bRec3] = some [[bRec1, bRec2, bRec3]] ∧
    detect_burst_duplicates 5 [bRec1, bRec2, bRec3] =
      some [(bRec1.path, [(bRec2.path, total_similarity bRec1 bRec2, "burst"),
                          (bRec3.path, total_similarity bRec1 bRec3, "burst")]),
            (bRec2.path, [(bRec3.path, total_similarity bRec2 bRec3, "burst")])] :=
  burst_scenario bRec1 bRec2 bRec3
    (by norm_num [bRec1, bRec2])
    (by norm_num [bRec2, bRec3])
    (by decide)
    (by norm_num +decide [total_similarity, calculate_perceptual_similarity,
      calculate_feature_similarity, alookup, hexHamming?, hexVal?, hexDigitVal?, popcount,
      popcountFuel, hexToHashDist?, bRec1, bRec2, phC, ftC])
    (by norm_num +decide [total_similarity, calculate_perceptual_similarity,
      calculate_feature_similarity, alookup, hexHamming?, hexVal?, hexDigitVal?, popcount,
      popcountFuel, hexToHashDist?, bRec1, bRec3, phC, ftC])
    (by norm_num +decide [total_similarity, calculate_perceptual_similarity,
      calculate_feature_similarity, alookup, hexHamming?, hexVal?, hexDigitVal?, popcount,
      popcountFuel, hexToHashDist?, bRec2, bRec3, phC, ftC])

/-- C6 counterexample: the directories `summer_trip` and `summer_beach` both
generate the keyword key `summer`; the index maps it to the LAST-registered
directory, not the first-registered one as claimed. -/
theorem album_key_maps_to_last_directory :
    "summer" ∈ albumKeys "summer_trip" ∧
    "summer" ∈ albumKeys "summer_beach" ∧
    "summer_trip" ∉ reserved_names ∧ "summer_beach" ∉ reserved_names ∧
    alookup "summer" (detect_existing_albums "dest" ["summer_trip", "summer_beach"]) =
      some "dest/summer_beach" ∧
    some ("dest/summer_beach" : String) ≠ some "dest/summer_trip" := by
  refine ⟨by decide, by decide, by decide, by decide, ?_, by decide⟩
  decide

/-- C7 counterexample: a non-RAW file with no album match is planned by the
two bilingual planner copies to different destinations — the English copy
formats the configured hierarchy `%Y/%m-%B/%d-%A`, the Spanish copy formats
`year/month` — so the copies are not behaviorally identical. -/
theorem planners_differ_on_date_fallback :
    plan_moves "dest" [] toDateC ["x/photo.png"] [] (fun _ => 1684022400) =
      [("x/photo.png", "dest/2023/05-May/14-Sunday/photo.png", 1684022400)] ∧
    planificar_movimientos "dest" [] toDateC ["x/photo.png"] [] (fun _ => 1684022400) =
      [("x/photo.png", "dest/2023/05/photo.png", 1684022400)] ∧
    ("dest/2023/05-May/14-Sunday/photo.png" : String) ≠ "dest/2023/05/photo.png" := by
  refine ⟨?_, ?_, by decide⟩ <;>
    simp +decide [plan_moves, planificar_movimientos, toDateC, pathJoin, pathSuffix,
      pathStem, pathParent, pathName, pathParts, lowerStr, lastSlashSplit, dotIdx,
      find_matching_album, occursIn, leadsWith, splitChars, raw_extensions,
      resolve_name_collision, resolver_colision_nombre, strftime_hierarchy, pad2, Nat.repr,
      Nat.toDigits, Nat.toDigitsCore, Nat.digitChar, List.asString]

/-- C7 witness for `planners_agree`: a single RAW file is planned identically
by both copies. -/
theorem planners_agree_witness :
    plan_moves "d" [] toDateC ["a.cr2"] [] (fun _ => 0) =
      planificar_movimientos "d" [] toDateC ["a.cr2"] [] (fun _ => 0) :=
  planners_agree "d" [] toDateC ["a.cr2"] [] (fun _ => 0) (by
    intro f hf
    simp only [List.mem_singleton] at hf
    subst hf
    left
    decide)

/-- Record with the collector-recognized RAW extension `.cr3`, which the
best-file scorer does not reward. -/
def cr3Rec : FileRec := ⟨"p/x.cr3", 0, 5000, "", "", [], [("pixels", 12000000)]⟩

/-- JPEG record with the same size and resolution as `cr3Rec`. -/
def jpegRec : FileRec := ⟨"p/x.jpg", 0, 5000, "", "", [], [("pixels", 12000000)]⟩

/-- C8 counterexample: `.cr3` is in the RAW set of the file collector and
planner, but `score_file` gives it bonus 0, so a `.cr3` record loses to a
same-size same-resolution JPEG and the selector keeps the JPEG. -/
theorem cr3_record_loses_to_jpeg :
    lowerStr (pathSuffix cr3Rec.path) ∈ raw_extensions ∧
    cr3Rec.size = jpegRec.size ∧
    alookup "pixels" cr3Rec.features = alookup "pixels" jpegRec.features ∧
    score_file cr3Rec < score_file jpegRec ∧
    select_best_file [cr3Rec, jpegRec] = some jpegRec := by
  refine ⟨by decide, rfl, rfl, ?_, ?_⟩ <;>
    norm_num +decide [score_file, select_best_file, alookup, lowerStr, pathSuffix,
      lastSlashSplit, dotIdx, cr3Rec, jpegRec]

/-- DNG record for the C8 witness. -/
def dngRec : FileRec := ⟨"p/y.dng", 0, 5000, "", "", [], [("pixels", 12000000)]⟩

/-- PNG record with the same size and resolution as `dngRec`. -/
def pngRec : FileRec := ⟨"p/y.png", 0, 5000, "", "", [], [("pixels", 12000000)]⟩

/-- C8 witness for `raw4_outscores`: a `.dng` record outscores a same-size
same-resolution `.png` record. -/
theorem raw4_outscores_witness : score_file pngRec < score_file dngRec :=
  raw4_outscores dngRec pngRec rfl rfl (by decide) (by decide)

/-- An edge of the duplicate graph `m` from kept path `a` to path `b`. -/
def pairedDup (m : DupDict) (a b : String) : Prop :=
  ∃ es, alookup a m = some es ∧ ∃ e ∈ es, e.1 = b

/-- C9: records with an empty `binary_hash` (resp. `content_hash`) are skipped
by the grouping of the exact (resp. content) pass, so two such records are
never classified as duplicates of each other, in either direction (paths are
distinct per the record invariant). -/
theorem empty_hashes_never_paired (fd : List FileRec) (r1 r2 : FileRec)
    (h1 : r1 ∈ fd) (h2 : r2 ∈ fd)
    (hb1 : r1.binary_hash = "") (hb2 : r2.binary_hash = "")
    (hc1 : r1.content_hash = "") (hc2 : r2.content_hash = "")
    (hnd : (fd.map FileRec.path).Nodup) :
    ¬ pairedDup (detect_exact_duplicates fd) r1.path r2.path ∧
    ¬ pairedDup (detect_exact_duplicates fd) r2.path r1.path ∧
    ¬ pairedDup (detect_content_duplicates fd) r1.path r2.path ∧
    ¬ pairedDup (detect_content_duplicates fd) r2.path r1.path := by
  have hgen : ∀ (key : FileRec → String) (reason : String) (r : FileRec), r ∈ fd →
      key r = "" → ∀ b, ¬ pairedDup (detectPass key reason fd) r.path b := by
    intro key reason r hr hke b hpair
    rcases hpair with ⟨es, hlook, _⟩
    rcases detectPass_keys_sound key reason fd r.path es hlook with ⟨r', hr', hk', hp'⟩
    have hrr : r' = r := List.inj_on_of_nodup_map hnd hr' hr hp'
    exact hk' (hrr ▸ hke)
  exact ⟨hgen _ "exact" r1 h1 hb1 r2.path, hgen _ "exact" r2 h2 hb2 r1.path,
    hgen _ "content" r1 h1 hc1 r2.path, hgen _ "content" r2 h2 hc2 r1.path⟩

/-- Unreadable file record: every hash empty. -/
def unreadable1 : FileRec := ⟨"u/1.jpg", 0, 1, "", "", [], []⟩

/-- Second unreadable file record. -/
def unreadable2 : FileRec := ⟨"u/2.jpg", 0, 1, "", "", [], []⟩

/-- C9 witness for `empty_hashes_never_paired` at two concrete unreadable
records. -/
theorem empty_hashes_never_paired_witness :
    ¬ pairedDup (detect_exact_duplicates [unreadable1, unreadable2])
        unreadable1.path unreadable2.path ∧
    ¬ pairedDup (detect_exact_duplicates [unreadable1, unreadable2])
        unreadable2.path unreadable1.path ∧
    ¬ pairedDup (detect_content_duplicates [unreadable1, unreadable2])
        unreadable1.path unreadable2.path ∧
    ¬ pairedDup (detect_content_duplicates [unreadable1, unreadable2])
        unreadable2.path unreadable1.path :=
  empty_hashes_never_paired [unreadable1, unreadable2] unreadable1 unreadable2
    (List.mem_cons_self _ _) (List.mem_cons_of_mem _ (List.mem_cons_self _ _))
    rfl rfl rfl rfl (by decide)

/-- C10: calling the classifier on an empty record list with the visual pass
enabled reaches `group_by_time`, whose first statement indexes the sorted
(empty) list and raises `IndexError` — modelled as `none` — while any
non-empty input yields a result: non-emptiness is a precondition for
totality. -/
theorem classifier_requires_nonempty_input :
    (∀ visual_threshold temporal_threshold : ℚ,
      remove_duplicates visual_threshold temporal_threshold [] false = none) ∧
    (∀ (visual_threshold temporal_threshold : ℚ) (fd : List FileRec), fd ≠ [] →
      (remove_duplicates visual_threshold temporal_threshold fd false).isSome = true) :=
  ⟨fun _ _ => rfl, fun v t fd h => remove_duplicates_total v t fd h⟩

/-- C10 witness for `classifier_requires_nonempty_input` at concrete
thresholds and a one-record list. -/
theorem classifier_requires_nonempty_input_witness :
    remove_duplicates 1 2 [] false = none ∧
    (remove_duplicates 1 2 [unreadable1] false).isSome = true :=
  ⟨classifier_requires_nonempty_input.1 1 2,
   classifier_requires_nonempty_input.2 1 2 [unreadable1] (by decide)⟩
